import Mathlib

/-!
Verification development for the RetroScraper repository.

Shallow embedding of the JavaScript sources into Lean 4.  Each definition
carries a comment pointing to the source location it was translated from.
JavaScript strings are modelled as Lean strings restricted to the character
operations the code actually uses (ASCII case folding, the whitespace class
of the regexes involved); JavaScript numbers appearing here are integers or
exact rationals (all scores in scope are sums and quotients of small
integers, which IEEE doubles represent without any rounding that could
affect the comparisons proved below); fallible code is modelled with
Except; module-level mutable bindings are modelled by explicit state
records.
-/

namespace RetroScraper

/-! ## JavaScript string primitives -/

/-- Whitespace class of the JavaScript regexes in scope (the `\s` class and
`String.prototype.trim`), restricted to the characters that can occur in the
inputs considered here: ASCII whitespace plus NBSP. -/
def jsIsSpace (c : Char) : Bool :=
  c = ' ' || c = '\t' || c = '\n' || c = '\r' || c = '\x0b' || c = '\x0c' || c = ' '

/-- ASCII word character, the `\w` class of JavaScript regexes. -/
def isWordChar (c : Char) : Bool :=
  c.isAlpha || c.isDigit || c = '_'

/-- JavaScript `String.prototype.toLowerCase`, ASCII range (the sources only
compare ASCII titles and tokens). -/
def jsToLower (s : String) : String :=
  ⟨s.toList.map Char.toLower⟩

/-- Characters of a string after `trim` on the left. -/
def dropSpacesLeft (cs : List Char) : List Char :=
  cs.dropWhile jsIsSpace

/-- JavaScript `String.prototype.trim`. -/
def jsTrim (s : String) : String :=
  ⟨(((s.toList.dropWhile jsIsSpace).reverse.dropWhile jsIsSpace).reverse)⟩

/-- Helper for `jsCollapseWs`: the flag records whether we are inside a
whitespace run that has already emitted its single replacement space. -/
def collapseWsAux : Bool → List Char → List Char
  | _, [] => []
  | inRun, c :: rest =>
    if jsIsSpace c then
      if inRun then collapseWsAux true rest
      else ' ' :: collapseWsAux true rest
    else c :: collapseWsAux false rest

/-- JavaScript `s.replace(/\s+/g, ' ')`: every maximal whitespace run becomes
a single space. -/
def jsCollapseWs (s : String) : String :=
  ⟨collapseWsAux false s.toList⟩

/-- Helper for `jsSplitWs`.  Mode `false`: accumulating the current piece
(in reverse); mode `true`: inside a separator run that has just ended a
piece. -/
def splitWsAux : Bool → List Char → List Char → List String
  | false, [], cur => [⟨cur.reverse⟩]
  | false, c :: rest, cur =>
    if jsIsSpace c then (⟨cur.reverse⟩ : String) :: splitWsAux true rest []
    else splitWsAux false rest (c :: cur)
  | true, [], _ => [""]
  | true, c :: rest, _ =>
    if jsIsSpace c then splitWsAux true rest []
    else splitWsAux false rest [c]

/-- JavaScript `s.split(/\s+/)`: splits at maximal whitespace runs, keeping
the empty leading piece when the string starts with whitespace and the empty
trailing piece when it ends with one (exact JS behaviour, e.g.
`" a ".split(/\s+/)` is `["", "a", ""]` and `"".split(/\s+/)` is `[""]`). -/
def jsSplitWs (s : String) : List String :=
  splitWsAux false s.toList []

/-- Does `pat` occur at the start of `cs`? -/
def isStartOfCs : List Char → List Char → Bool
  | [], _ => true
  | _ :: _, [] => false
  | p :: ps, c :: cs => p = c && isStartOfCs ps cs

/-- Substring containment on character lists (JavaScript
`String.prototype.includes`). -/
def includesCs : List Char → List Char → Bool
  | hay, needle =>
    if isStartOfCs needle hay then true
    else
      match hay with
      | [] => false
      | _ :: t => includesCs t needle

/-- JavaScript `hay.includes(needle)`. -/
def jsIncludes (hay needle : String) : Bool :=
  includesCs hay.toList needle.toList

/-- Helper for `jsDedup`: drop elements already seen, keeping first
occurrences (JavaScript `Set` iteration order). -/
def jsDedupAux (seen : List String) : List String → List String
  | [] => []
  | x :: xs =>
    if seen.contains x then jsDedupAux seen xs
    else x :: jsDedupAux (x :: seen) xs

/-- The distinct elements of a list in first-occurrence order, i.e. the
iteration order of a JavaScript `Set` built from the list. -/
def jsDedup (l : List String) : List String :=
  jsDedupAux [] l

/-- Association-list lookup modelling property access `obj[key]` on a plain
JavaScript object used as a map. -/
def alGet {α : Type} (k : String) : List (String × α) → Option α
  | [] => none
  | (k2, v) :: rest => if k2 = k then some v else alGet k rest

/-- Association-list update modelling assignment `obj[key] = v`. -/
def alSet {α : Type} (k : String) (v : α) : List (String × α) → List (String × α)
  | [] => [(k, v)]
  | (k2, v2) :: rest => if k2 = k then (k, v) :: rest else (k2, v2) :: alSet k v rest

/-! ## A small regex engine

Backtracking matcher with JavaScript semantics: ordered alternation, greedy
and lazy quantifiers, word-boundary assertions, case-insensitive literals.
It is only instantiated at the concrete patterns appearing in the sources
(none of which can match the empty string or iterate an empty-matching
body).  The `fuel` argument bounds recursion depth; `reFuel` is ample for
the inputs evaluated in this file and fuel exhaustion cannot be hit by
them. -/

inductive RE where
  | eps
  | lit (c : Char)
  | litCI (c : Char)
  | cls (p : Char → Bool)
  | seq (a b : RE)
  | alt (a b : RE)
  | star (r : RE)
  | lazyStar (r : RE)
  | opt (r : RE)
  | wb

/-- Word-boundary test between the previous character (`none` at the string
edge) and the rest of the input. -/
def atBoundary (prev : Option Char) (s : List Char) : Bool :=
  let pw := match prev with | some c => isWordChar c | none => false
  let nw := match s with | c :: _ => isWordChar c | [] => false
  pw != nw

/-- Continuation-passing backtracking matcher.  `prev` is the character just
before the current position (for `\b`); the continuation receives the
updated context and the remaining input.  Ordered `<|>` gives JavaScript
alternation and quantifier preference. -/
def matchRE : Nat → RE → Option Char → List Char →
    (Option Char → List Char → Option (List Char)) → Option (List Char)
  | 0, _, _, _, _ => none
  | fuel + 1, r, prev, s, k =>
    match r with
    | .eps => k prev s
    | .lit c =>
      match s with
      | [] => none
      | x :: xs => if x = c then k (some x) xs else none
    | .litCI c =>
      match s with
      | [] => none
      | x :: xs => if x.toLower = c then k (some x) xs else none
    | .cls p =>
      match s with
      | [] => none
      | x :: xs => if p x then k (some x) xs else none
    | .seq a b => matchRE fuel a prev s (fun p2 s2 => matchRE fuel b p2 s2 k)
    | .alt a b => (matchRE fuel a prev s k).orElse (fun _ => matchRE fuel b prev s k)
    | .star r0 =>
      (matchRE fuel r0 prev s (fun p2 s2 => matchRE fuel (.star r0) p2 s2 k)).orElse
        (fun _ => k prev s)
    | .lazyStar r0 =>
      (k prev s).orElse
        (fun _ => matchRE fuel r0 prev s (fun p2 s2 => matchRE fuel (.lazyStar r0) p2 s2 k))
    | .opt r0 => (matchRE fuel r0 prev s k).orElse (fun _ => k prev s)
    | .wb => if atBoundary prev s then k prev s else none

/-- Recursion-depth budget for the matcher; far above what the small
patterns and short strings evaluated here can consume. -/
def reFuel : Nat := 5000

/-- Try to match `r` at the start of `s`; returns the remaining input after
the (leftmost-preference) match. -/
def reMatchAt (r : RE) (prev : Option Char) (s : List Char) : Option (List Char) :=
  matchRE reFuel r prev s (fun _ rest => some rest)

/-- Scanner for global replacement by a single space, JavaScript
`s.replace(pat, ' ')` with the `g` flag: find leftmost matches left to
right, resume after each match.  The fuel is the remaining string length,
which bounds the number of scan steps. -/
def replaceScan : Nat → RE → Option Char → List Char → List Char
  | 0, _, _, s => s
  | _ + 1, _, _, [] => []
  | fuel + 1, r, prev, c :: rest =>
    match reMatchAt r prev (c :: rest) with
    | some rem =>
      let s := c :: rest
      let consumed := s.length - rem.length
      if consumed = 0 then
        ' ' :: c :: replaceScan fuel r (some c) rest
      else
        ' ' :: replaceScan fuel r (s.take consumed).getLast? rem
    | none => c :: replaceScan fuel r (some c) rest

/-- JavaScript `s.replace(pat, ' ')` with a global pattern. -/
def jsReplaceAll (r : RE) (s : String) : String :=
  ⟨replaceScan (s.toList.length + 1) r none s.toList⟩

/-- Scanner collecting all (non-overlapping, leftmost) matches, JavaScript
`s.match(pat)` with the `g` flag (`null` becoming the empty list). -/
def matchAllScan : Nat → RE → Option Char → List Char → List (List Char)
  | 0, _, _, _ => []
  | _ + 1, _, _, [] => []
  | fuel + 1, r, prev, c :: rest =>
    match reMatchAt r prev (c :: rest) with
    | some rem =>
      let s := c :: rest
      let consumed := s.length - rem.length
      if consumed = 0 then matchAllScan fuel r (some c) rest
      else s.take consumed :: matchAllScan fuel r (s.take consumed).getLast? rem
    | none => matchAllScan fuel r (some c) rest

/-- All matches of a global pattern, as strings. -/
def jsMatchAll (r : RE) (s : String) : List String :=
  (matchAllScan (s.toList.length + 1) r none s.toList).map fun cs => ⟨cs⟩

/-- Scanner for the first match of a (non-global) pattern, JavaScript
`s.match(pat)?.[0]`. -/
def matchFirstScan : Nat → RE → Option Char → List Char → Option (List Char)
  | 0, _, _, _ => none
  | _ + 1, _, _, [] => none
  | fuel + 1, r, prev, c :: rest =>
    match reMatchAt r prev (c :: rest) with
    | some rem =>
      let s := c :: rest
      let consumed := s.length - rem.length
      if consumed = 0 then none else some (s.take consumed)
    | none => matchFirstScan fuel r (some c) rest

/-- First match of a pattern in a string, if any. -/
def jsMatchFirst (r : RE) (s : String) : Option String :=
  (matchFirstScan (s.toList.length + 1) r none s.toList).map fun cs => ⟨cs⟩

/-- Case-insensitive literal word (each character compared lowercased, the
`i` flag of the source regexes). -/
def reStrCI (w : String) : RE :=
  w.toList.foldr (fun c acc => .seq (.litCI c.toLower) acc) .eps

/-- Ordered alternation of a list of branches (JavaScript `|`, leftmost
branch preferred). -/
def reAltList : List RE → RE
  | [] => .eps
  | [r] => r
  | r :: rest => .alt r (reAltList rest)

/-- One-or-more repetition. -/
def rePlus (r : RE) : RE := .seq r (.star r)

/-! ## Title preprocessing (tagGenerator.js, `preprocessGameName`, lines 414-477)

The nine patterns below are literal translations of the `patterns` object.
Alternation order and flags follow the source exactly. -/

/-- The class `[\d\.]`. -/
def digitDotCls : RE := .cls fun c => c.isDigit || c = '.'

/-- The class `\s`. -/
def wsCls : RE := .cls jsIsSpace

/-- The class `\w`. -/
def wordCls : RE := .cls isWordChar

/-- The `.` metacharacter: any character except a line terminator. -/
def dotCls : RE := .cls fun c => !(c = '\n' || c = '\r')

/-- Pattern `regions`:
`\b(EU|USA|EUR|JPN|JAP|NTSC|PAL|World|UE|JP|U|J|E|A)\b` with flags `gi`. -/
def regionsRE : RE :=
  .seq .wb (.seq (reAltList (["EU", "USA", "EUR", "JPN", "JAP", "NTSC", "PAL",
    "World", "UE", "JP", "U", "J", "E", "A"].map reStrCI)) .wb)

/-- Pattern `versions`: `\b(v[\d\.]+|ver[\d\.]+|rev[\d\.]+)\b` with `gi`. -/
def versionsRE : RE :=
  .seq .wb (.seq (reAltList [
    .seq (reStrCI "v") (rePlus digitDotCls),
    .seq (reStrCI "ver") (rePlus digitDotCls),
    .seq (reStrCI "rev") (rePlus digitDotCls)]) .wb)

/-- Pattern `modifiers`:
`\b(beta|alpha|proto|sample|demo|final|retail|promo)\b` with `gi`. -/
def modifiersRE : RE :=
  .seq .wb (.seq (reAltList (["beta", "alpha", "proto", "sample", "demo",
    "final", "retail", "promo"].map reStrCI)) .wb)

/-- Pattern `fixes`: `\b(fix\d*|fixed|patch\d*|patched)\b` with `gi`. -/
def fixesRE : RE :=
  .seq .wb (.seq (reAltList [
    .seq (reStrCI "fix") (.star (.cls Char.isDigit)),
    reStrCI "fixed",
    .seq (reStrCI "patch") (.star (.cls Char.isDigit)),
    reStrCI "patched"]) .wb)

/-- Pattern `translations`:
`\b((\w{2})\s*trans|translation|translated\s*\(?(\w{2})\)?)` with `gi`.
Note the source regex has no trailing `\b`. -/
def translationsRE : RE :=
  .seq .wb (reAltList [
    .seq wordCls (.seq wordCls (.seq (.star wsCls) (reStrCI "trans"))),
    reStrCI "translation",
    .seq (reStrCI "translated") (.seq (.star wsCls) (.seq (.opt (.lit '('))
      (.seq wordCls (.seq wordCls (.opt (.lit ')'))))))])

/-- Pattern `dumps`: `\[(.*?)\]|\((.*?)\)` with `g`. -/
def dumpsRE : RE :=
  .alt (.seq (.lit '[') (.seq (.lazyStar dotCls) (.lit ']')))
    (.seq (.lit '(') (.seq (.lazyStar dotCls) (.lit ')')))

/-- Pattern `media`: `\b(disk|disc|tape|side)\s*[ABCD\d]\b` with `gi`. -/
def mediaRE : RE :=
  .seq .wb (.seq (reAltList (["disk", "disc", "tape", "side"].map reStrCI))
    (.seq (.star wsCls)
      (.seq (.cls fun c =>
        c.toLower = 'a' || c.toLower = 'b' || c.toLower = 'c' || c.toLower = 'd' || c.isDigit)
      .wb)))

/-- Pattern `separators`: `[-_:;\/\\]` with `g`. -/
def separatorsRE : RE :=
  .cls fun c => c = '-' || c = '_' || c = ':' || c = ';' || c = '/' || c = '\\'

/-- Pattern `suffixes`:
`\b(remastered|remake|rerelease|classic|collection)\b` with `gi`. -/
def suffixesRE : RE :=
  .seq .wb (.seq (reAltList (["remastered", "remake", "rerelease", "classic",
    "collection"].map reStrCI)) .wb)

/-- The extraction buckets of `preprocessGameName` (one list of lowercased
matches per pattern, in source order). -/
structure Extracted where
  regions : List String
  versions : List String
  modifiers : List String
  fixes : List String
  translations : List String
  dumps : List String
  media : List String
  separators : List String
  suffixes : List String
deriving DecidableEq, Repr

/-- The all-empty extraction result. -/
def emptyExtracted : Extracted := ⟨[], [], [], [], [], [], [], [], []⟩

/-- Return value of `preprocessGameName`. -/
structure Preprocessed where
  clean : String
  extracted : Extracted
  original : String
deriving DecidableEq, Repr

/-- One pass of the pattern loop body: the matches of `pat` against the
current `clean` (lowercased, `clean.match(pattern) || []`), and the string
after `clean.replace(pattern, ' ')`. -/
def patternPass (pat : RE) (clean : String) : List String × String :=
  ((jsMatchAll pat clean).map jsToLower, jsReplaceAll pat clean)

/-- `preprocessGameName` (tagGenerator.js lines 414-477).  A falsy or
non-string `title` yields the empty result object; otherwise the nine
patterns run in source order, each extracting its matches from and then
blanking them out of the working string, and the result is
whitespace-collapsed and trimmed.  The `try`/`catch` in the source cannot
fire in this pure model. -/
def preprocessGameName (title : String) : Preprocessed :=
  if title = "" then ⟨"", emptyExtracted, ""⟩
  else
    let c0 := jsTrim title
    let p1 := patternPass regionsRE c0
    let p2 := patternPass versionsRE p1.2
    let p3 := patternPass modifiersRE p2.2
    let p4 := patternPass fixesRE p3.2
    let p5 := patternPass translationsRE p4.2
    let p6 := patternPass dumpsRE p5.2
    let p7 := patternPass mediaRE p6.2
    let p8 := patternPass separatorsRE p7.2
    let p9 := patternPass suffixesRE p8.2
    ⟨jsTrim (jsCollapseWs p9.2),
     ⟨p1.1, p2.1, p3.1, p4.1, p5.1, p6.1, p7.1, p8.1, p9.1⟩,
     title⟩

/-! ## IGDB candidate objects and the composite scorer
(tagGenerator.js, `scoreMatch`, lines 532-580) -/

/-- An `alternative_names` element.  The source accesses `an.name` both
defensively (`a.name?.toLowerCase() || ''`, pickBestFuzzyMatch) and directly
(`an.name.toLowerCase()`, scoreMatch); per the IGDB schema `name` is present
on every alternative-name record, so a missing name is modelled as
defaulting to the empty string. -/
structure AltName where
  name : Option String
deriving DecidableEq, Repr

/-- An `involved_companies` element: the role flags consulted through
`ic[role]` and the nested `ic.company.name` (flattened; `none` models a
missing `company` object or a missing `name`). -/
structure InvolvedCompany where
  developer : Bool
  publisher : Bool
  companyName : Option String
deriving DecidableEq, Repr

/-- An IGDB game result, restricted to the fields the matching code reads. -/
structure Candidate where
  id : Nat
  name : Option String
  alternative_names : Option (List AltName)
  platforms : Option (List Nat)
  first_release_date : Option Nat
  involved_companies : Option (List InvolvedCompany)
deriving DecidableEq, Repr

/-- Truthiness of a possibly-missing JavaScript string (`undefined`, `null`
and `''` are falsy). -/
def jsTruthyStr : Option String → Bool
  | none => false
  | some s => s ≠ ""

/-- The dynamic role lookup `ic[role]` of `getCompanies`; any role other
than the two real fields reads `undefined`, which is falsy. -/
def icRole (ic : InvolvedCompany) (role : String) : Bool :=
  if role = "developer" then ic.developer
  else if role = "publisher" then ic.publisher
  else false

/-- `getCompanies` (utils.js): filters involved companies by
`ic && ic[role] && ic.company && ic.company.name`, maps to the company
names, and joins with a comma. -/
def getCompanies (l : Option (List InvolvedCompany)) (role : String) : String :=
  match l with
  | none => ""
  | some cs =>
    String.intercalate ", "
      ((cs.filter fun ic => icRole ic role && jsTruthyStr ic.companyName).map
        fun ic => ic.companyName.getD "")

/-- Gregorian leap-year test (proleptic, as used by JavaScript `Date`). -/
def isLeapYear (y : Nat) : Bool :=
  (y % 4 = 0 && y % 100 ≠ 0) || y % 400 = 0

/-- Helper: walk years forward from 1970 consuming whole-year day counts. -/
def yearFromDaysAux : Nat → Nat → Nat → Nat
  | 0, y, _ => y
  | fuel + 1, y, d =>
    let diy := if isLeapYear y then 366 else 365
    if d < diy then y else yearFromDaysAux fuel (y + 1) (d - diy)

/-- The UTC year of an epoch timestamp in seconds, i.e.
`new Date(ts * 1000).getFullYear()` for non-negative timestamps. -/
def utcYearOfSeconds (ts : Nat) : Nat :=
  yearFromDaysAux (ts / 86400 / 365 + 2) 1970 (ts / 86400)

/-- The year regex of `scoreMatch`: `\b(19|20)\d{2}\b`. -/
def yearRE : RE :=
  .seq .wb (.seq (.alt (reStrCI "19") (reStrCI "20"))
    (.seq (.cls Char.isDigit) (.seq (.cls Char.isDigit) .wb)))

/-- Exact-match bonus of `scoreMatch` (line 538): +100 when the
preprocessed clean titles agree case-insensitively. -/
def exactBonus (base cand : Preprocessed) : ℚ :=
  if jsToLower base.clean = jsToLower cand.clean then 100 else 0

/-- Platform bonus (line 543): +20 when a platform id was supplied, the
candidate carries a `platforms` array, and it contains the id.  `platformId`
zero is falsy in the source guard. -/
def platformBonus (cand : Candidate) (platformId : Nat) : ℚ :=
  if platformId ≠ 0 && cand.platforms.isSome &&
      (cand.platforms.getD []).contains platformId then 20 else 0

/-- Word-overlap score (lines 548-551): the two clean titles are lowercased,
split on `\s+`, deduplicated through `Set`, and the fraction of base words
present among candidate words (over the larger set size) is scaled to 50. -/
def wordScore (baseClean candClean : String) : ℚ :=
  let bw := jsDedup (jsSplitWs (jsToLower baseClean))
  let cw := jsDedup (jsSplitWs (jsToLower candClean))
  let common := bw.filter fun w => cw.contains w
  ((common.length : ℚ) / ((max bw.length cw.length : Nat) : ℚ)) * 50

/-- Year bonus (lines 553-560): +15 when the base clean title contains a
19xx/20xx year equal (as a string) to the candidate release year. -/
def yearBonus (base : Preprocessed) (cand : Candidate) : ℚ :=
  match jsMatchFirst yearRE base.clean, cand.first_release_date with
  | some bY, some ts => if bY = toString (utcYearOfSeconds ts) then 15 else 0
  | _, _ => 0

/-- Region bonus (lines 562-568): +10 when some extracted base region tag
also occurs among the candidate's extracted region tags or as a substring of
one of its lowercased alternative names. -/
def regionBonus (base candPre : Preprocessed) (cand : Candidate) : ℚ :=
  if base.extracted.regions.any (fun r =>
      candPre.extracted.regions.contains r ||
      (cand.alternative_names.getD []).any fun an =>
        jsIncludes (jsToLower (an.name.getD "")) r) then 10 else 0

/-- Company bonus (lines 570-577): +10 when `involved_companies` is present
and some word of `getCompanies(..., 'all')` (lowercased, split on `\s+`)
occurs in the lowercased base clean title.  With role `'all'` the company
string is always empty, so the split yields `[""]` and the containment test
is vacuously true; the model keeps the source computation as written. -/
def companyBonus (base : Preprocessed) (cand : Candidate) : ℚ :=
  if cand.involved_companies.isSome then
    let companies := getCompanies cand.involved_companies "all"
    if (jsSplitWs (jsToLower companies)).any
        (fun w => jsIncludes (jsToLower base.clean) w) then 10 else 0
  else 0

/-- `scoreMatch` (tagGenerator.js lines 532-580): the sum of the six
bonuses, in source order.  `candidate.name` missing makes
`preprocessGameName` take its falsy-input guard, which coincides with
preprocessing the empty string. -/
def scoreMatch (baseTitle : String) (cand : Candidate) (platformId : Nat) : ℚ :=
  exactBonus (preprocessGameName baseTitle) (preprocessGameName (cand.name.getD "")) +
    platformBonus cand platformId +
    wordScore (preprocessGameName baseTitle).clean
      (preprocessGameName (cand.name.getD "")).clean +
    yearBonus (preprocessGameName baseTitle) cand +
    regionBonus (preprocessGameName baseTitle)
      (preprocessGameName (cand.name.getD "")) cand +
    companyBonus (preprocessGameName baseTitle) cand

/-! ## Pure fuzzy matching
(metadataFetcher.js, `pickBestFuzzyMatch`, lines 62-88, over the
`string-similarity` v4 dependency, modelled from its published algorithm:
Dice coefficient on character bigrams after whitespace removal) -/

/-- `compareTwoStrings` helper: the list of adjacent character pairs. -/
def bigrams : List Char → List (Char × Char)
  | a :: b :: rest => (a, b) :: bigrams (b :: rest)
  | _ => []

/-- Multiset intersection size of two bigram lists, as computed by the
library (a count map of the first list, decremented while scanning the
second). -/
def interCount : List (Char × Char) → List (Char × Char) → Nat
  | _, [] => 0
  | avail, b :: rest =>
    if avail.contains b then 1 + interCount (avail.erase b) rest
    else interCount avail rest

/-- `stringSimilarity.compareTwoStrings`: strip all whitespace, return 1 for
equal strings, 0 when either has fewer than two characters, else the bigram
Dice coefficient.  The rationals computed here (quotients of small
integers) are exactly the IEEE doubles the library produces for the
comparisons in scope. -/
def compareTwoStrings (a b : String) : ℚ :=
  if a.toList.filter (fun c => !jsIsSpace c) = b.toList.filter (fun c => !jsIsSpace c) then 1
  else if (a.toList.filter (fun c => !jsIsSpace c)).length < 2 ||
      (b.toList.filter (fun c => !jsIsSpace c)).length < 2 then 0
  else
    (2 * (interCount (bigrams (a.toList.filter fun c => !jsIsSpace c))
        (bigrams (b.toList.filter fun c => !jsIsSpace c))) : ℚ) /
      (((a.toList.filter fun c => !jsIsSpace c).length +
        (b.toList.filter fun c => !jsIsSpace c).length - 2 : Nat) : ℚ)

/-- `findBestMatch` index selection: scan ratings left to right, keeping the
first strictly-greatest one (the library updates only on `>`); the
accumulator starts from the first rating. -/
def bestRatingAux : List ℚ → Nat → Nat → ℚ → Nat × ℚ
  | [], _, bi, br => (bi, br)
  | r :: rest, i, bi, br =>
    if br < r then bestRatingAux rest (i + 1) i r
    else bestRatingAux rest (i + 1) bi br

/-- Index and value of the best rating (first maximum), as in
`stringSimilarity.findBestMatch`. -/
def bestRating : List ℚ → Nat × ℚ
  | [] => (0, 0)
  | r :: rest => bestRatingAux rest 1 0 r

/-- The flattened name pool of `pickBestFuzzyMatch` (lines 68-73): for each
result, its lowercased name (empty when missing) followed by its lowercased
alternative names, each tagged with the result index. -/
def allNamesOf (results : List Candidate) : List (String × Nat) :=
  results.enum.flatMap fun p =>
    (jsToLower (p.2.name.getD ""), p.1) ::
      (p.2.alternative_names.getD []).map fun a => (jsToLower (a.name.getD ""), p.1)

/-- The similarity ratings `findBestMatch` computes inside
`pickBestFuzzyMatch`: the lowercased base title against every pooled name. -/
def pickScores (base : String) (results : List Candidate) : List ℚ :=
  (allNamesOf results).map fun p => compareTwoStrings (jsToLower base) p.1

/-- `pickBestFuzzyMatch` (metadataFetcher.js lines 62-88): empty result
lists return `none` immediately; otherwise the best-rated pooled name is
found and the corresponding result returned unless its rating is strictly
below the threshold (`FUZZY_MATCH_THRESHOLD`, default 0.4). -/
def pickBestFuzzyMatch (threshold : ℚ) (base : String) (results : List Candidate) :
    Option Candidate :=
  if results.isEmpty then none
  else if (bestRating (pickScores base results)).2 < threshold then none
  else
    ((allNamesOf results).get? (bestRating (pickScores base results)).1).bind
      fun p => results.get? p.2

/-! ## Two-tier cache (cache.js, `CacheManager`, lines 13-230)

State of one `CacheManager`: the degraded-mode flags, the durable (Redis)
tier and the local in-memory tier.  The LRU bookkeeping and TTLs of the
local tier do not affect an immediate `set`/`get` pair and are not
modelled; `JSON.stringify`/`JSON.parse` round-tripping on the durable tier
is modelled as the identity, exact for the JSON-representable metadata
objects cached here.  A `redisFails` flag passed to each operation models
the durable client throwing on that operation. -/

/-- Internal errors a cache operation can raise and catch. -/
inductive JsError where
  | typeError
  | redisError
  | payloadTooLarge
deriving DecidableEq, Repr

/-- The mutable fields of `CacheManager` plus the two storage tiers. -/
structure CacheState (α : Type) where
  useRedis : Bool
  redisConnected : Bool
  redisStore : List (String × α)
  memory : List (String × α)

/-- `CacheManager.set` (lines 184-196): the memory tier is always written
first; the durable tier is attempted only when both flags are up, and a
durable failure is caught and ignored (the memory write already
happened). -/
def cacheSet {α : Type} (redisFails : Bool) (k : String) (v : α) (st : CacheState α) :
    CacheState α :=
  let afterMem : CacheState α := { st with memory := alSet k v st.memory }
  let attempt : Except JsError (CacheState α) :=
    if afterMem.useRedis && afterMem.redisConnected then
      if redisFails then .error .redisError
      else .ok { afterMem with redisStore := alSet k v afterMem.redisStore }
    else .ok afterMem
  match attempt with
  | .ok s => s
  | .error _ => afterMem

/-- `CacheManager.get` (lines 169-182): read the durable tier when both
flags are up, else the memory tier; any durable error is caught and
answered from the memory tier. -/
def cacheGet {α : Type} (redisFails : Bool) (k : String) (st : CacheState α) : Option α :=
  let attempt : Except JsError (Option α) :=
    if st.useRedis && st.redisConnected then
      if redisFails then .error .redisError
      else .ok (alGet k st.redisStore)
    else .ok (alGet k st.memory)
  match attempt with
  | .ok v => v
  | .error _ => alGet k st.memory

/-! ## Rate limiter (fileScanner.js second module, `rateLimiter`, lines
118-217)

The adaptive state below holds the module's concurrency ceiling and
`last429Timestamp` (a `let` binding, line 148).  `MAX_CONCURRENCY`,
however, reaches this module as a `const`-destructured import (lines
126-131), so the assignment `MAX_CONCURRENCY = Math.max(1, ...)` at line
206 throws `TypeError: Assignment to constant variable` whenever it is
reached — before the log line and before `last429Timestamp = now` at line
209.  Timestamps are milliseconds; `now - last` on JavaScript numbers and
truncated Nat subtraction agree on the `< 30000` test for every ordering
of the two timestamps. -/

/-- The module state read by `handle429`: the concurrency ceiling
(`MAX_CONCURRENCY`, a `let` in the constants module but a `const` import
in this one) and `last429Timestamp`. -/
structure AdaptiveState where
  maxConcurrency : Nat
  last429 : Nat
deriving DecidableEq, Repr

/-- `handle429` (lines 201-210): no-op unless `ADAPTIVE_RATE`.  When the
previous 429 was less than 30000 ms ago the function reaches the halving
assignment at line 206, which throws a `TypeError` (assignment to the
`const`-destructured `MAX_CONCURRENCY` binding), leaving both the ceiling
and the timestamp unchanged; otherwise the halving branch is skipped and
only the timestamp is recorded. -/
def handle429 (adaptiveRate : Bool) (now : Nat) (st : AdaptiveState) :
    Except JsError AdaptiveState :=
  if !adaptiveRate then .ok st
  else if now - st.last429 < 30000 then .error .typeError
  else .ok { maxConcurrency := st.maxConcurrency, last429 := now }

/-! ### The admission gate (`queueRequest`/`processNextTask`/`waitForToken`,
lines 158-197)

Single-threaded JavaScript event-loop semantics, made explicit.  A queued
task launched by the `processNextTask` loop runs synchronously only up to
its first `await`: `waitForToken()` decrements the token bucket
synchronously when a token is available, and the continuation that performs
`currentConcurrency++` and starts the wrapped request is deferred to a
microtask.  Hence the `while` loop of `processNextTask` re-reads an
unchanged `currentConcurrency` while it drains the queue. -/

/-- Event-loop state of the rate-limiter module: `queue` counts entries of
`activeTasks`; `micro` counts launched tasks whose
`currentConcurrency++; fn()` continuation is still pending as a microtask;
`sleeping` counts launched tasks parked in the `waitForToken` polling loop;
`inFlight` is `currentConcurrency`; `tokens` is `tokenBucket`; `maxConc` is
`MAX_CONCURRENCY`. -/
structure GateState where
  queue : Nat
  micro : Nat
  sleeping : Nat
  inFlight : Nat
  tokens : Nat
  maxConc : Nat
deriving DecidableEq, Repr

/-- The synchronous part of `next()`: `waitForToken` takes a token at once
when one is available (queuing the increment-and-run continuation as a
microtask), otherwise the task parks on the 100 ms poll timer. -/
def launchTask (s : GateState) : GateState :=
  if s.tokens > 0 then
    { s with tokens := s.tokens - 1, micro := s.micro + 1 }
  else
    { s with sleeping := s.sleeping + 1 }

/-- The `while` loop of `processNextTask` (lines 183-188), fuelled by the
queue length: it keeps dequeuing while the queue is non-empty and
`currentConcurrency < MAX_CONCURRENCY`, and `currentConcurrency` cannot
change during this synchronous loop. -/
def drainLoop : Nat → GateState → GateState
  | 0, s => s
  | n + 1, s =>
    if s.queue > 0 && s.inFlight < s.maxConc then
      drainLoop n (launchTask { s with queue := s.queue - 1 })
    else s

/-- `processNextTask`. -/
def processNextTask (s : GateState) : GateState :=
  drainLoop s.queue s

/-- The synchronous part of `queueRequest` (lines 158-178): push the task
and run `processNextTask`. -/
def queueRequestStep (s : GateState) : GateState :=
  processNextTask { s with queue := s.queue + 1 }

/-- Running one pending microtask continuation: `currentConcurrency++`
followed immediately by starting the wrapped request, which is then in
flight. -/
def runMicrotask (s : GateState) : GateState :=
  if s.micro > 0 then
    { s with micro := s.micro - 1, inFlight := s.inFlight + 1 }
  else s

/-- Completion of an in-flight request: `currentConcurrency--`, resolve,
then `processNextTask` again. -/
def completeTask (s : GateState) : GateState :=
  processNextTask { s with inFlight := s.inFlight - 1 }

/-- The two-requests-in-one-tick scenario: both `queueRequest` calls happen
in the same synchronous block (as `Promise.all` over a metadata batch
does), then the event loop runs the two pending microtasks.  Initial state:
empty module state with the default `MAX_REQUESTS_PER_SECOND = 4` tokens
and a concurrency ceiling of 1. -/
def gateScenario : GateState :=
  runMicrotask (runMicrotask (queueRequestStep (queueRequestStep
    ⟨0, 0, 0, 0, 4, 1⟩)))

/-! ## IGDB request retry loop (igdb.js, `igdbRequest`, lines 60-147)

The successive upstream responses to the retried `axios.post` are the
scripted inputs, each paired with the `Date.now()` timestamp at which its
handler runs; each loop iteration consumes one.  The `handle429()` call in
the 429 branch (line 117) threads the adaptive state — and the `TypeError`
it throws when a prior 429 lies within the 30-second window propagates out
of the `catch` block, rejecting the whole request.  Timer waits are
recorded in a delay log. -/

/-- One upstream response: a success payload (result ids), an HTTP error
status, or a response-less network failure. -/
inductive Resp where
  | ok (payload : List Nat)
  | status (code : Nat)
  | netfail
deriving DecidableEq, Repr

/-- Outcome of the retry loop, with the log of `setTimeout` delays (ms)
performed along the way.  `raised` is an exception reaching the caller
(the 413 `throw`, or the `TypeError` escaping `handle429`); `hung` marks
exhaustion of the scripted responses (the loop would still be running). -/
inductive RunResult where
  | success (payload : List Nat) (sleeps : List Nat)
  | empty (sleeps : List Nat)
  | raised (e : JsError) (sleeps : List Nat)
  | hung (sleeps : List Nat)
deriving DecidableEq, Repr

/-- The error a run raises to the caller, if any. -/
def RunResult.raisedErr : RunResult → Option JsError
  | .raised e _ => some e
  | _ => none

/-- The `while (true)` retry loop of `igdbRequest` (lines 77-143):
401 renews the token and retries; 429 first calls `handle429()` — if that
throws, the exception leaves the `catch` block and the request rejects
before any sleep; otherwise the loop sleeps the current delay, doubles it,
and gives up with an empty result after `maxRetries = 5` retries; 413
throws; 400 and every other failure return an empty result immediately. -/
def runIgdb (adaptiveRate : Bool) :
    List (Nat × Resp) → AdaptiveState → Nat → Nat → List Nat → RunResult
  | [], _, _, _, sleeps => .hung sleeps
  | (t, r) :: rest, rl, retries, delay, sleeps =>
    match r with
    | .ok payload => .success payload sleeps
    | .netfail => .empty sleeps
    | .status code =>
      if code = 401 then runIgdb adaptiveRate rest rl retries delay sleeps
      else if code = 429 then
        match handle429 adaptiveRate t rl with
        | .error e => .raised e sleeps
        | .ok rl2 =>
          let sleeps2 := sleeps ++ [delay]
          if retries + 1 > 5 then .empty sleeps2
          else runIgdb adaptiveRate rest rl2 (retries + 1) (delay * 2) sleeps2
      else if code = 413 then .raised .payloadTooLarge sleeps
      else if code = 400 then .empty sleeps
      else .empty sleeps

/-- `igdbRequest` entry (lines 60-68, 77-80, 146): offline mode and cache
hits return without touching the network; otherwise the retry loop starts
with zero retries and a 2000 ms delay over the rate-limiter module's
current adaptive state.  `queueRequest` resolves with the loop's value and
rejects exactly when it throws, so the gate wrapper preserves this
outcome. -/
def igdbRequest (offline : Bool) (cached : Option (List Nat)) (adaptiveRate : Bool)
    (rl : AdaptiveState) (responses : List (Nat × Resp)) : RunResult :=
  if offline then .success [] []
  else
    match cached with
    | some data => .success data []
    | none => runIgdb adaptiveRate responses rl 0 2000 []

/-! ## Batch orchestrator
(buildGameLibrary.js, `processBatch` lines 112-243 and `buildGameLibrary`
lines 246-303)

Filesystem and network effects are passed in explicitly: the per-entry
metadata lookup is an oracle (its alignment with the batch input is the
subject of C10), the pre-existing library map is a parameter in place of
`loadExistingGames`, and the scanned entries replace `collectGameEntries`.
`LibRecord` keeps the fields the claims depend on (key identity, ROM
paths, match provenance); the remaining three dozen presentation fields of
`gameData` are copied verbatim from the metadata object and cannot affect
any count or key. -/

/-- A scanned ROM entry (`{title, consoleName, romPath}`). -/
structure RomEntry where
  title : String
  consoleName : String
  romPath : String
deriving DecidableEq, Repr

/-- Metadata payload for a matched entry, reduced to its identity. -/
structure MetaInfo where
  igdbId : Nat
deriving DecidableEq, Repr

/-- The library key
`consoleName.toLowerCase().trim() + ':' + title.toLowerCase().trim()`. -/
def entryKey (e : RomEntry) : String :=
  jsTrim (jsToLower e.consoleName) ++ ":" ++ jsTrim (jsToLower e.title)

/-- A persisted library record (fields relevant to the claims). -/
structure LibRecord where
  title : String
  console : String
  igdbId : Nat
  romPaths : List String
  metadataFetched : Bool
deriving DecidableEq, Repr

/-- An `unmatchedGames` element (`{title, console, romPath}`). -/
structure UnmatchedRec where
  title : String
  console : String
  romPath : String
deriving DecidableEq, Repr

/-- The `gameData` object built for a matched entry (lines 161-208). -/
def mkGameData (e : RomEntry) (m : MetaInfo) : LibRecord :=
  ⟨e.title, e.consoleName, m.igdbId, [e.romPath], true⟩

/-- Return value of `processBatch` together with the updated shared
state. -/
structure BatchResult where
  finalMap : List (String × LibRecord)
  unmatchedGames : List UnmatchedRec
  processed : Nat
  matched : Nat
deriving Repr

/-- The per-entry body of the `Promise.all` in `processBatch` (lines
123-237): an entry without metadata is appended to `unmatchedGames` and the
callback returns; an entry with metadata has its `gameData` written to
`finalMap[key]` and counts as matched.  The batch entries carry no awaits
that reorder these effects in a way any count or key set could observe, so
they are folded sequentially. -/
def processEntry (oracle : RomEntry → Option MetaInfo)
    (st : List (String × LibRecord) × List UnmatchedRec × Nat) (g : RomEntry) :
    List (String × LibRecord) × List UnmatchedRec × Nat :=
  match oracle g with
  | none => (st.1, st.2.1 ++ [⟨g.title, g.consoleName, g.romPath⟩], st.2.2)
  | some m => (alSet (entryKey g) (mkGameData g m) st.1, st.2.1, st.2.2 + 1)

/-- `processBatch` (lines 112-243): entries whose key is already present in
`finalMap` are filtered out up front; an empty filtered batch returns
`{processed: 0, matched: 0}` with no state change; otherwise each surviving
entry is processed as above; `processed` is the filtered batch length and
`matched` counts entries whose metadata lookup succeeded. -/
def processBatch (oracle : RomEntry → Option MetaInfo) (games : List RomEntry)
    (finalMap : List (String × LibRecord)) (unmatched : List UnmatchedRec) :
    BatchResult :=
  let batch := games.filter fun g => (alGet (entryKey g) finalMap).isNone
  if batch.isEmpty then ⟨finalMap, unmatched, 0, 0⟩
  else
    let r := batch.foldl (processEntry oracle) (finalMap, unmatched, 0)
    ⟨r.1, r.2.1, batch.length, r.2.2⟩

/-- Orchestrator loop state of `buildGameLibrary` (lines 258-288), plus a
log of the `saveCurrentData` checkpoints performed. -/
structure BuildState where
  finalMap : List (String × LibRecord)
  unmatched : List UnmatchedRec
  processedCount : Nat
  matchedCount : Nat
  processedSinceLastSave : Nat
  saves : List (List (String × LibRecord) × List UnmatchedRec)
deriving Repr

/-- One iteration of the `for (const batch of batches)` loop (lines
276-288): run `processBatch`, add `batchResults.processed` to
`processedCount` and `batchResults.matched` to `matchedCount`
(`processedSinceLastSave` is not updated anywhere in this function), then
checkpoint and reset the counter when it has reached `SAVE_EVERY_N`. -/
def buildStep (oracle : RomEntry → Option MetaInfo) (saveEveryN : Nat)
    (st : BuildState) (batch : List RomEntry) : BuildState :=
  let r := processBatch oracle batch st.finalMap st.unmatched
  let st2 : BuildState :=
    { st with
      finalMap := r.finalMap
      unmatched := r.unmatchedGames
      processedCount := st.processedCount + r.processed
      matchedCount := st.matchedCount + r.matched }
  if saveEveryN ≤ st2.processedSinceLastSave then
    { st2 with
      saves := st2.saves ++ [(st2.finalMap, st2.unmatched)]
      processedSinceLastSave := 0 }
  else st2

/-- `buildGameLibrary` (lines 246-303): the empty scan short-circuits;
otherwise the entries are cut into batches of `MAX_BATCH_SIZE`, which the
constants module fixes at 1 (ui.js constants section, line 321), so the
batch list is the singleton chunks of the entry list, and the loop above
runs over it starting from the reloaded existing map. -/
def buildGameLibrary (oracle : RomEntry → Option MetaInfo) (saveEveryN : Nat)
    (existingMap : List (String × LibRecord)) (newGameEntries : List RomEntry) :
    BuildState :=
  if newGameEntries.isEmpty then ⟨existingMap, [], 0, 0, 0, []⟩
  else
    (newGameEntries.map (fun e => [e])).foldl (buildStep oracle saveEveryN)
      ⟨existingMap, [], 0, 0, 0, []⟩

/-! ## Batched metadata fetch
(tagGenerator.js second module, `fetchGameMetadataBatch`, lines 672-742) -/

/-- A (non-null) element of the `games` argument, with the two properties
the function reads; `none` models an absent property and `some ""` an
empty-string one (both falsy). -/
structure GameObjEntry where
  consoleName : Option String
  title : Option String
deriving DecidableEq, Repr

/-- The argument value: a JavaScript array (whose elements may themselves be
`null`/`undefined`, modelled as `none`) or any non-array value. -/
inductive BatchArg where
  | notArray
  | arr (games : List (Option GameObjEntry))

/-- `o || d` for possibly-missing strings. -/
def jsOrStr (o : Option String) (d : String) : String :=
  match o with
  | none => d
  | some s => if s = "" then d else s

/-- The cache-key template of lines 679-681 for a non-null element:
`metadata:${game.consoleName || 'unknown'}:${game.title || ''}`. -/
def gameKeyStr (g : GameObjEntry) : String :=
  "metadata:" ++ jsOrStr g.consoleName "unknown" ++ ":" ++ jsOrStr g.title ""

/-- The cache-key computation for one element: reading `game.consoleName`
of a `null`/`undefined` element throws a `TypeError`. -/
def cacheKeyOf : Option GameObjEntry → Except JsError String
  | none => .error .typeError
  | some g => .ok (gameKeyStr g)

/-- The key of an element of an all-non-null array (the degenerate value
for `none` is never reached under that hypothesis). -/
def keyForced : Option GameObjEntry → String
  | none => ""
  | some g => gameKeyStr g

/-- The synchronous `games.map(game => template)` of lines 679-681, which
propagates the `TypeError` thrown at the first `null` element. -/
def mapKeys : List (Option GameObjEntry) → Except JsError (List String)
  | [] => .ok []
  | g :: gs => do
    let k ← cacheKeyOf g
    let ks ← mapKeys gs
    pure (k :: ks)

/-- `getPlatformId` (utils.js): throws on a missing console name
(`consoleName.toLowerCase()` on `undefined`); else an exact lookup in
`PLATFORM_ID_MAP` (a zero id being falsy falls through), then the first map
entry whose key is a substring of the normalized name, else `null`. -/
def getPlatformId (platMap : List (String × Nat)) :
    Option String → Except JsError (Option Nat)
  | none => .error .typeError
  | some s =>
    let normalized := jsToLower s
    let scan := (platMap.find? fun p => jsIncludes normalized p.1).map Prod.snd
    .ok (match alGet normalized platMap with
      | some v => if v ≠ 0 then some v else scan
      | none => scan)

/-- The per-missing-entry callback of lines 705-720: `null` for an invalid
entry (`!game || !game.title`); otherwise `advancedSearch(game.title,
getPlatformId(game.consoleName) || 0)` inside `try`, answering the head of
the result list, with any thrown error caught to `null`. -/
def fetchOneGame {μ : Type} (platMap : List (String × Nat))
    (searchO : String → Nat → Except JsError (List μ)) (g : Option GameObjEntry) :
    Option μ :=
  match g with
  | none => none
  | some go =>
    if !jsTruthyStr go.title then none
    else
      let attempt : Except JsError (Option μ) := do
        let pid ← getPlatformId platMap go.consoleName
        let rs ← searchO (go.title.getD "") (pid.getD 0)
        pure rs.head?
      match attempt with
      | .ok r => r
      | .error _ => none

/-- Chunks of five, the `BATCH_SIZE = 5` slicing of line 699. -/
def chunksOf5 : List Nat → List (List Nat)
  | [] => []
  | x :: xs => (x :: xs.take 4) :: chunksOf5 (xs.drop 4)
termination_by l => l.length
decreasing_by simp [List.length_drop]; omega

/-- Applying one batch of missing-index updates: each index receives the
fetched result for its game (`results[originalIndex] = result`,
lines 726-732). -/
def applyBatchUpdates {μ : Type} (games : List (Option GameObjEntry))
    (f : Option GameObjEntry → Option μ) (idxs : List Nat)
    (results : List (Option μ)) : List (Option μ) :=
  idxs.foldl (fun acc i => acc.set i (f (games.getD i none))) results

/-- The array case of `fetchGameMetadataBatch`: the cache keys are built
for every element (throwing on a `null` element — the error propagates, as
JavaScript's exception does through the async function); on success the
cached results (`cache.mget`) seed the output array at their original
indexes, and the cache misses are re-fetched in chunks of five
(`BATCH_SIZE = 5`), each result landing back at its original index.  The
inter-chunk delay affects timing only. -/
def fetchBatchArr {μ : Type} (platMap : List (String × Nat))
    (cacheVal : String → Option μ) (searchO : String → Nat → Except JsError (List μ))
    (games : List (Option GameObjEntry)) : Except JsError (List (Option μ)) :=
  match mapKeys games with
  | .error e => .error e
  | .ok keys =>
    .ok ((chunksOf5 ((List.range games.length).filter
        (fun i => ((keys.map cacheVal).getD i none).isNone))).foldl
      (fun acc ch => applyBatchUpdates games (fetchOneGame platMap searchO) ch acc)
      (keys.map cacheVal))

/-- `fetchGameMetadataBatch` (lines 672-742).  A non-array argument returns
`[]` (lines 673-676); an array is processed as above. -/
def fetchGameMetadataBatch {μ : Type} (platMap : List (String × Nat))
    (cacheVal : String → Option μ) (searchO : String → Nat → Except JsError (List μ)) :
    BatchArg → Except JsError (List (Option μ))
  | .notArray => .ok []
  | .arr games => fetchBatchArr platMap cacheVal searchO games

/-- Per-slot specification of `fetchGameMetadataBatch` on arrays without
null elements: slot `i` holds the cached metadata for `games[i]` when the
cache hits, else the freshly fetched result (possibly `none`), and `none`
for invalid entries. -/
def expectedBatchResult {μ : Type} (platMap : List (String × Nat))
    (cacheVal : String → Option μ) (searchO : String → Nat → Except JsError (List μ))
    (g : Option GameObjEntry) : Option μ :=
  match g with
  | none => none
  | some go =>
    match cacheVal (gameKeyStr go) with
    | some m => some m
    | none => fetchOneGame platMap searchO (some go)

/-! ## Concrete instances used by witnesses and counterexamples -/

/-- A result candidate whose name has Dice similarity exactly 2/5 to the
base title `"abc"`. -/
def c7cand : Candidate := ⟨0, some "abde", none, none, none, none⟩

/-- A scanned ROM entry for the orchestrator examples. -/
def c1entry : RomEntry := ⟨"Mario", "NES", "m.nes"⟩

/-- A second scanned ROM entry. -/
def c3entry : RomEntry := ⟨"Zelda", "NES", "z.nes"⟩

/-- A pre-existing library record under the key of `c1entry`. -/
def c1record : LibRecord := ⟨"Mario", "NES", 7, ["m0.nes"], true⟩

/-- A library map already containing `c1entry`'s key. -/
def c1map : List (String × LibRecord) := [("nes:mario", c1record)]

/-- The `processBatch` run on a single already-present entry. -/
def c1run : BatchResult := processBatch (fun _ => none) [c1entry] c1map []

/-- A candidate with clean title identical to the base title `"ab"`. -/
def c6candA : Candidate := ⟨0, some "ab", none, none, none, none⟩

/-- A candidate with a different clean title. -/
def c6candB : Candidate := ⟨1, some "cd", none, none, none, none⟩

end RetroScraper

namespace RetroScraper

/-! ## Helper lemmas -/

theorem alGet_alSet_self {α : Type} (k : String) (v : α) :
    ∀ l : List (String × α), alGet k (alSet k v l) = some v := by
  intro l
  induction l with
  | nil => simp [alSet, alGet]
  | cons p rest ih =>
    by_cases h : p.1 = k
    · simp [alSet, h, alGet]
    · simpa [alSet, h, alGet] using ih

theorem splitWsAux_ne_nil : ∀ (cs : List Char) (m : Bool) (cur : List Char),
    splitWsAux m cs cur ≠ [] := by
  intro cs
  induction cs with
  | nil => intro m cur; cases m <;> simp [splitWsAux]
  | cons c rest ih =>
    intro m cur
    cases m <;> by_cases h : jsIsSpace c <;> simp [splitWsAux, h] <;> apply ih

theorem jsSplitWs_ne_nil (s : String) : jsSplitWs s ≠ [] :=
  splitWsAux_ne_nil s.toList false []

theorem jsDedup_ne_nil {l : List String} (h : l ≠ []) : jsDedup l ≠ [] := by
  cases l with
  | nil => exact absurd rfl h
  | cons x xs => simp [jsDedup, jsDedupAux]

theorem jsDedup_length_pos {l : List String} (h : l ≠ []) : 0 < (jsDedup l).length :=
  List.length_pos.mpr (jsDedup_ne_nil h)

theorem filter_contains_self (l : List String) :
    (l.filter fun w => l.contains w) = l := by
  apply List.filter_eq_self.mpr
  intro a ha
  simpa using ha

/-- The word-overlap score is exactly 50 whenever the lowercased clean
titles coincide. -/
theorem wordScore_of_lower_eq {b c : String} (h : jsToLower b = jsToLower c) :
    wordScore b c = 50 := by
  unfold wordScore
  rw [h]
  dsimp only
  set L := jsDedup (jsSplitWs (jsToLower c)) with hL
  have hne : L ≠ [] := jsDedup_ne_nil (jsSplitWs_ne_nil _)
  have hpos : 0 < L.length := List.length_pos.mpr hne
  have hq : ((L.length : Nat) : ℚ) ≠ 0 := by exact_mod_cast hpos.ne'
  rw [filter_contains_self L, max_self, div_self hq]
  norm_num

theorem wordScore_nonneg (b c : String) : 0 ≤ wordScore b c := by
  unfold wordScore
  have h1 : (0 : ℚ) ≤ ((jsDedup (jsSplitWs (jsToLower b))).filter
      (fun w => (jsDedup (jsSplitWs (jsToLower c))).contains w)).length := by positivity
  positivity

theorem wordScore_le (b c : String) : wordScore b c ≤ 50 := by
  unfold wordScore
  set bw := jsDedup (jsSplitWs (jsToLower b)) with hbw
  set cw := jsDedup (jsSplitWs (jsToLower c)) with hcw
  have hpos : 0 < bw.length := jsDedup_length_pos (jsSplitWs_ne_nil _)
  have hmax : 0 < max bw.length cw.length := lt_of_lt_of_le hpos (le_max_left _ _)
  have hle : (bw.filter fun w => cw.contains w).length ≤ max bw.length cw.length :=
    le_trans (List.length_filter_le _ _) (le_max_left _ _)
  have hq : ((bw.filter fun w => cw.contains w).length : ℚ) /
      ((max bw.length cw.length : Nat) : ℚ) ≤ 1 := by
    rw [div_le_one (by exact_mod_cast hmax)]
    exact_mod_cast hle
  calc ((bw.filter fun w => cw.contains w).length : ℚ) /
      ((max bw.length cw.length : Nat) : ℚ) * 50 ≤ 1 * 50 := by
        apply mul_le_mul_of_nonneg_right hq; norm_num
    _ = 50 := by norm_num

theorem exactBonus_nonneg (b c : Preprocessed) : 0 ≤ exactBonus b c := by
  unfold exactBonus; split <;> norm_num

theorem platformBonus_nonneg (c : Candidate) (p : Nat) : 0 ≤ platformBonus c p := by
  unfold platformBonus; split <;> norm_num

theorem platformBonus_le (c : Candidate) (p : Nat) : platformBonus c p ≤ 20 := by
  unfold platformBonus; split <;> norm_num

theorem yearBonus_nonneg (b : Preprocessed) (c : Candidate) : 0 ≤ yearBonus b c := by
  unfold yearBonus
  split
  · split_ifs <;> norm_num
  · norm_num

theorem yearBonus_le (b : Preprocessed) (c : Candidate) : yearBonus b c ≤ 15 := by
  unfold yearBonus
  split
  · split_ifs <;> norm_num
  · norm_num

theorem regionBonus_nonneg (b cp : Preprocessed) (c : Candidate) :
    0 ≤ regionBonus b cp c := by
  unfold regionBonus; split <;> norm_num

theorem regionBonus_le (b cp : Preprocessed) (c : Candidate) :
    regionBonus b cp c ≤ 10 := by
  unfold regionBonus; split <;> norm_num

theorem companyBonus_nonneg (b : Preprocessed) (c : Candidate) :
    0 ≤ companyBonus b c := by
  unfold companyBonus
  dsimp only
  split_ifs <;> norm_num

theorem companyBonus_le (b : Preprocessed) (c : Candidate) : companyBonus b c ≤ 10 := by
  unfold companyBonus
  dsimp only
  split_ifs <;> norm_num

theorem processEntry_fold (oracle : RomEntry → Option MetaInfo) :
    ∀ (l : List RomEntry) (fm : List (String × LibRecord))
      (um : List UnmatchedRec) (m0 : Nat),
      (l.foldl (processEntry oracle) (fm, um, m0)).2.1.length +
        (l.foldl (processEntry oracle) (fm, um, m0)).2.2
        = um.length + m0 + l.length := by
  intro l
  induction l with
  | nil => intro fm um m0; simp
  | cons g rest ih =>
    intro fm um m0
    cases h : oracle g with
    | none =>
      simp only [List.foldl_cons, processEntry, h]
      rw [ih]
      simp only [List.length_append, List.length_cons, List.length_nil]
      omega
    | some m =>
      simp only [List.foldl_cons, processEntry, h]
      rw [ih]
      simp only [List.length_cons]
      omega

theorem buildStep_preserves (oracle : RomEntry → Option MetaInfo) (saveEveryN : Nat)
    (hN : 1 ≤ saveEveryN) (st : BuildState) (batch : List RomEntry)
    (h0 : st.processedSinceLastSave = 0) (hs : st.saves = []) :
    (buildStep oracle saveEveryN st batch).processedSinceLastSave = 0 ∧
      (buildStep oracle saveEveryN st batch).saves = [] := by
  unfold buildStep
  simp only [h0]
  have : ¬ (saveEveryN ≤ 0) := by omega
  simp [this, h0, hs]

theorem buildLoop_no_saves (oracle : RomEntry → Option MetaInfo) (saveEveryN : Nat)
    (hN : 1 ≤ saveEveryN) :
    ∀ (batches : List (List RomEntry)) (st : BuildState),
      st.processedSinceLastSave = 0 → st.saves = [] →
      (batches.foldl (buildStep oracle saveEveryN) st).saves = [] := by
  intro batches
  induction batches with
  | nil => intro st _ hs; simpa using hs
  | cons b rest ih =>
    intro st h0 hs
    have h := buildStep_preserves oracle saveEveryN hN st b h0 hs
    simpa using ih (buildStep oracle saveEveryN st b) h.1 h.2

/-! ## Claim theorems -/

/-- C1 (counterexample).  The entries-conservation invariant fails as
stated: a batch consisting of one RomEntry whose key is already present in
the library map produces no LibraryRecord write, no merge, and no
UnmatchedRecord — the entry yields no outcome at all, so
`|records produced or merged| + |unmatched| = 0 ≠ 1 = |input|`. -/
theorem claim_C1_counterexample :
    c1run.matched + c1run.unmatchedGames.length ≠ 1 ∧
      c1run.finalMap = c1map ∧ c1run.unmatchedGames = [] ∧ c1run.processed = 0 := by
  decide

/-- C1 (amended).  Entries-conservation holds for the entries that survive
`processBatch`'s already-present filter: the number of library-map writes
(`matched`) plus the number of UnmatchedRecords appended equals the number
of input entries whose key is not already in the map, each such entry
yielding exactly one of the two outcomes; entries whose key is already
present are skipped with no outcome, and `processed` counts exactly the
surviving entries. -/
theorem claim_C1_amended (oracle : RomEntry → Option MetaInfo)
    (games : List RomEntry) (fm : List (String × LibRecord))
    (um : List UnmatchedRec) :
    (processBatch oracle games fm um).unmatchedGames.length +
        (processBatch oracle games fm um).matched
      = um.length + (games.filter fun g => (alGet (entryKey g) fm).isNone).length ∧
    (processBatch oracle games fm um).processed
      = (games.filter fun g => (alGet (entryKey g) fm).isNone).length := by
  unfold processBatch
  by_cases h : (games.filter fun g => (alGet (entryKey g) fm).isNone).isEmpty = true
  · simp only [if_pos h]
    have hempty := List.isEmpty_iff.mp h
    simp [hempty]
  · simp only [if_neg h]
    refine ⟨?_, trivial⟩
    have hf := processEntry_fold oracle
      (games.filter fun g => (alGet (entryKey g) fm).isNone) fm um 0
    omega

/-- C2.  The claimed adaptive halving never happens: with `ADAPTIVE_RATE`
on, a 429 handled less than 30000 ms after the previous one makes
`handle429` reach the assignment to the `const`-destructured
`MAX_CONCURRENCY` binding, which throws a `TypeError` — the ceiling is not
halved and the timestamp is not updated; a 429 after a 30000 ms or longer
gap leaves the ceiling unchanged and only records the timestamp; with
`ADAPTIVE_RATE` off the call is a no-op. -/
theorem claim_C2 (st : AdaptiveState) (now : Nat) :
    (now - st.last429 < 30000 → handle429 true now st = .error .typeError) ∧
    (30000 ≤ now - st.last429 →
      handle429 true now st = .ok ⟨st.maxConcurrency, now⟩) ∧
    handle429 false now st = .ok st := by
  refine ⟨?_, ?_, rfl⟩
  · intro h
    unfold handle429
    simp [h]
  · intro h
    unfold handle429
    have : ¬ (now - st.last429 < 30000) := by omega
    simp [this]

/-- C2 (witness).  Concrete trace, ceiling 4: a first 429 handled at
100000 ms (long after the initial timestamp 0) only records the timestamp;
a second at 110000 ms — 10 s later, inside the 30 s window where the claim
demands a halving to 2 — instead throws the `TypeError`. -/
theorem claim_C2_witness :
    handle429 true 100000 ⟨4, 0⟩ = .ok ⟨4, 100000⟩ ∧
      handle429 true 110000 ⟨4, 100000⟩ = .error .typeError :=
  ⟨(claim_C2 ⟨4, 0⟩ 100000).2.1 (by decide),
   (claim_C2 ⟨4, 100000⟩ 110000).1 (by decide)⟩

/-- C3.  The cited Batch Orchestrator (buildGameLibrary.js lines 267-288)
never performs a mid-run checkpoint for any threshold of at least 1:
`processedSinceLastSave` is initialised to 0 and reset on save but never
incremented, so the save condition `processedSinceLastSave >= SAVE_EVERY_N`
is never reached no matter how many entries are processed — against the
specified behaviour of checkpointing each time SaveEveryN entries have been
processed (and against the sibling implementations in config.js and
metadataFetcher.js, which do increment the counter). -/
theorem claim_C3 (oracle : RomEntry → Option MetaInfo) (saveEveryN : Nat)
    (existingMap : List (String × LibRecord)) (entries : List RomEntry)
    (hN : 1 ≤ saveEveryN) :
    (buildGameLibrary oracle saveEveryN existingMap entries).saves = [] := by
  unfold buildGameLibrary
  by_cases h : entries.isEmpty
  · simp [h]
  · simp only [h, if_false]
    exact buildLoop_no_saves oracle saveEveryN hN _ _ rfl rfl

/-- C3 (witness).  Two fresh entries with threshold 1: the spec mandates a
checkpoint after the first processed entry, yet no save happens. -/
theorem claim_C3_witness :
    (buildGameLibrary (fun _ => none) 1 [] [c1entry, c3entry]).saves = [] :=
  claim_C3 (fun _ => none) 1 [] [c1entry, c3entry] (by decide)

/-- C4.  The concurrency ceiling is violated: two requests queued in the
same synchronous block with ceiling 1 and tokens available are both
launched by the `processNextTask` drain loop (which re-reads a
`currentConcurrency` that only changes in later microtasks), and after the
two pending microtasks run, two requests are in flight above the ceiling of
one — each admission did consume a token (4 tokens became 2), but the
in-flight bound claimed by the spec does not hold. -/
theorem claim_C4 :
    gateScenario.inFlight = 2 ∧ gateScenario.maxConc = 1 ∧
      gateScenario.maxConc < gateScenario.inFlight ∧ gateScenario.tokens = 2 := by
  decide

theorem handle429_error (a : Bool) (t : Nat) (rl : AdaptiveState) (e : JsError)
    (h : handle429 a t rl = .error e) : e = .typeError := by
  unfold handle429 at h
  split_ifs at h
  all_goals simp_all

/-- C5.  The 429 retry ladder and the error contract of `igdbRequest` hold
only while `handle429` does not throw: with `ADAPTIVE_RATE` off, six
upstream 429s yield an empty result after sleeps of 2, 4, 8, 16, 32 and 64
seconds (at most `maxRetries = 5` doubling retries after the initial
attempt, starting at 2000 ms); a 400 yields an empty result immediately
with no sleep; a 413 raises, and a payload-too-large error is raised only
when a 413 response occurs.  But with `ADAPTIVE_RATE` on (as the claimed
halving behaviour presupposes), a second 429 arriving 10 s after the first
makes `handle429` throw its `TypeError`, and `igdbRequest` rejects with it
after a single 2000 ms sleep instead of completing the ladder — a non-413
rejection surfacing to the caller as an exception. -/
theorem claim_C5 :
    (∀ (a b c d e f : Nat) (rest : List (Nat × Resp)) (rl : AdaptiveState),
      runIgdb false ((a, .status 429) :: (b, .status 429) :: (c, .status 429) ::
          (d, .status 429) :: (e, .status 429) :: (f, .status 429) :: rest) rl 0 2000 []
        = .empty [2000, 4000, 8000, 16000, 32000, 64000]) ∧
    (∀ (adaptive : Bool) (t : Nat) (rest : List (Nat × Resp)) (rl : AdaptiveState),
      runIgdb adaptive ((t, .status 400) :: rest) rl 0 2000 [] = .empty []) ∧
    (∀ (adaptive : Bool) (t : Nat) (rest : List (Nat × Resp)) (rl : AdaptiveState)
        (retries delay : Nat) (sleeps : List Nat),
      runIgdb adaptive ((t, .status 413) :: rest) rl retries delay sleeps
        = .raised .payloadTooLarge sleeps) ∧
    (runIgdb true [(100000, .status 429), (110000, .status 429)] ⟨4, 0⟩ 0 2000 []
        = .raised .typeError [2000]) ∧
    (∀ (adaptive : Bool) (rs : List (Nat × Resp)) (rl : AdaptiveState)
        (retries delay : Nat) (sleeps : List Nat),
      (runIgdb adaptive rs rl retries delay sleeps).raisedErr
          = some JsError.payloadTooLarge →
        Resp.status 413 ∈ rs.map Prod.snd) ∧
    (∀ (adaptive : Bool) (rl : AdaptiveState) (responses : List (Nat × Resp)),
      igdbRequest false none adaptive rl responses
        = runIgdb adaptive responses rl 0 2000 []) := by
  refine ⟨fun a b c d e f rest rl => rfl, fun adaptive t rest rl => rfl,
    fun adaptive t rest rl retries delay sleeps => rfl, by decide, ?_,
    fun adaptive rl responses => rfl⟩
  intro adaptive rs
  induction rs with
  | nil => intro rl retries delay sleeps h; simp [runIgdb, RunResult.raisedErr] at h
  | cons p rest ih =>
    intro rl retries delay sleeps h
    obtain ⟨t, r⟩ := p
    cases r with
    | ok payload => simp [runIgdb, RunResult.raisedErr] at h
    | netfail => simp [runIgdb, RunResult.raisedErr] at h
    | status code =>
      by_cases h401 : code = 401
      · subst h401
        have hstep : runIgdb adaptive ((t, Resp.status 401) :: rest) rl retries delay sleeps
            = runIgdb adaptive rest rl retries delay sleeps := rfl
        rw [hstep] at h
        exact List.mem_cons_of_mem _ (ih _ _ _ _ h)
      · by_cases h429 : code = 429
        · subst h429
          have hstep : runIgdb adaptive ((t, Resp.status 429) :: rest) rl retries delay sleeps
              = match handle429 adaptive t rl with
                | .error e => .raised e sleeps
                | .ok rl2 =>
                  if retries + 1 > 5 then .empty (sleeps ++ [delay])
                  else runIgdb adaptive rest rl2 (retries + 1) (delay * 2)
                    (sleeps ++ [delay]) := rfl
          rw [hstep] at h
          cases hh : handle429 adaptive t rl with
          | error e =>
            rw [hh] at h
            have he : e = .typeError := handle429_error adaptive t rl e hh
            subst he
            simp [RunResult.raisedErr] at h
          | ok rl2 =>
            rw [hh] at h
            dsimp only at h
            split at h
            · simp [RunResult.raisedErr] at h
            · exact List.mem_cons_of_mem _ (ih _ _ _ _ h)
        · by_cases h413 : code = 413
          · subst h413
            simp
          · by_cases h400 : code = 400
            · subst h400
              simp [runIgdb, RunResult.raisedErr] at h
            · simp [runIgdb, h401, h429, h413, h400, RunResult.raisedErr] at h

/-- C5 (witness).  The payload-too-large direction applied at a concrete
run: a first-response 413 raises it, and the 413 is indeed among the
responses. -/
theorem claim_C5_witness :
    Resp.status 413 ∈ ([((0 : Nat), Resp.status 413)].map Prod.snd) :=
  claim_C5.2.2.2.2.1 false [(0, Resp.status 413)] ⟨4, 0⟩ 0 2000 [] (by decide)

/-- C9.  Immediate read-your-write for the two-tier cache, in the modes the
spec describes: with the durable tier connected and operating, `get` after
`set` answers from the durable tier; with the tier flagged unavailable it
answers from the memory tier; and a durable failure during `get` (whatever
happened during `set`) is caught and transparently answered from the
memory tier — in all cases the value just written is returned and no error
escapes to the caller. -/
theorem claim_C9 {α : Type} (k : String) (v : α) (st : CacheState α) :
    (st.useRedis = true → st.redisConnected = true →
      cacheGet false k (cacheSet false k v st) = some v) ∧
    (st.useRedis = false ∨ st.redisConnected = false →
      ∀ rf1 rf2 : Bool, cacheGet rf2 k (cacheSet rf1 k v st) = some v) ∧
    (∀ rf1 : Bool, cacheGet true k (cacheSet rf1 k v st) = some v) := by
  refine ⟨?_, ?_, ?_⟩
  · intro hu hc
    simp [cacheSet, cacheGet, hu, hc, alGet_alSet_self]
  · intro hdown rf1 rf2
    cases hu : st.useRedis <;> cases hc : st.redisConnected <;>
        cases rf1 <;> cases rf2 <;>
      simp_all [cacheSet, cacheGet, alGet_alSet_self]
  · intro rf1
    cases hu : st.useRedis <;> cases hc : st.redisConnected <;> cases rf1 <;>
      simp_all [cacheSet, cacheGet, alGet_alSet_self]

/-- C9 (witness).  Concrete instance over natural-number values: a
connected healthy tier, a disconnected tier, and a failing `get` all return
the value just written. -/
theorem claim_C9_witness :
    cacheGet false "k" (cacheSet false "k" 5 (⟨true, true, [], []⟩ : CacheState Nat))
        = some 5 ∧
    cacheGet false "k" (cacheSet false "k" 5 (⟨false, true, [], []⟩ : CacheState Nat))
        = some 5 ∧
    cacheGet true "k" (cacheSet true "k" 5 (⟨true, true, [], []⟩ : CacheState Nat))
        = some 5 :=
  ⟨(claim_C9 "k" 5 _).1 rfl rfl,
   (claim_C9 "k" 5 _).2.1 (Or.inl rfl) false false,
   (claim_C9 "k" 5 _).2.2 true⟩

/-- C6.  In `scoreMatch`, a candidate whose preprocessed clean title equals
the base's case-insensitively strictly outranks every candidate whose clean
title differs, whatever other bonuses the latter earns: the exact candidate
collects the 100-point exact bonus plus the full 50-point word overlap,
while a non-exact candidate can total at most 20 + 50 + 15 + 10 + 10 =
105 < 150. -/
theorem claim_C6 (baseTitle : String) (cA cB : Candidate) (pid : Nat)
    (hA : jsToLower (preprocessGameName baseTitle).clean
        = jsToLower (preprocessGameName (cA.name.getD "")).clean)
    (hB : jsToLower (preprocessGameName baseTitle).clean
        ≠ jsToLower (preprocessGameName (cB.name.getD "")).clean) :
    scoreMatch baseTitle cB pid < scoreMatch baseTitle cA pid := by
  have hexA : exactBonus (preprocessGameName baseTitle)
      (preprocessGameName (cA.name.getD "")) = 100 := by
    unfold exactBonus; rw [if_pos hA]
  have hexB : exactBonus (preprocessGameName baseTitle)
      (preprocessGameName (cB.name.getD "")) = 0 := by
    unfold exactBonus; rw [if_neg hB]
  have hwA : wordScore (preprocessGameName baseTitle).clean
      (preprocessGameName (cA.name.getD "")).clean = 50 :=
    wordScore_of_lower_eq hA
  have h1 : (150 : ℚ) ≤ scoreMatch baseTitle cA pid := by
    unfold scoreMatch
    rw [hexA, hwA]
    have b1 := platformBonus_nonneg cA pid
    have b2 := yearBonus_nonneg (preprocessGameName baseTitle) cA
    have b3 := regionBonus_nonneg (preprocessGameName baseTitle)
      (preprocessGameName (cA.name.getD "")) cA
    have b4 := companyBonus_nonneg (preprocessGameName baseTitle) cA
    linarith
  have h2 : scoreMatch baseTitle cB pid ≤ 105 := by
    unfold scoreMatch
    rw [hexB]
    have b1 := platformBonus_le cB pid
    have b2 := wordScore_le (preprocessGameName baseTitle).clean
      (preprocessGameName (cB.name.getD "")).clean
    have b3 := yearBonus_le (preprocessGameName baseTitle) cB
    have b4 := regionBonus_le (preprocessGameName baseTitle)
      (preprocessGameName (cB.name.getD "")) cB
    have b5 := companyBonus_le (preprocessGameName baseTitle) cB
    linarith
  linarith

/-- C6 (witness).  With base title `"ab"`, the exactly-matching candidate
`"ab"` outscores the non-matching candidate `"cd"`. -/
theorem claim_C6_witness :
    scoreMatch "ab" c6candB 0 < scoreMatch "ab" c6candA 0 :=
  claim_C6 "ab" c6candA c6candB 0 (by decide) (by decide)

theorem cts_abc_abde : compareTwoStrings "abc" "abde" = 2 / 5 := by
  unfold compareTwoStrings
  rw [if_neg (by decide), if_neg (by decide)]
  rw [show interCount (bigrams (("abc" : String).toList.filter fun c => !jsIsSpace c))
      (bigrams (("abde" : String).toList.filter fun c => !jsIsSpace c)) = 1 from by decide]
  rw [show (("abc" : String).toList.filter fun c => !jsIsSpace c).length +
      (("abde" : String).toList.filter fun c => !jsIsSpace c).length - 2 = 5 from by decide]
  norm_num

theorem bestRating_c7 : (bestRating (pickScores "abc" [c7cand])).2 = 2 / 5 := by
  have h0 : (bestRating (pickScores "abc" [c7cand])).2
      = compareTwoStrings "abc" "abde" := rfl
  rw [h0, cts_abc_abde]

theorem pick_c7_eq : pickBestFuzzyMatch (2 / 5) "abc" [c7cand] = some c7cand := by
  unfold pickBestFuzzyMatch
  rw [if_neg (by decide), if_neg (by rw [bestRating_c7]; exact lt_irrefl _)]
  rfl

/-- C7 (counterexample).  The claim requires a candidate to be returned
only when its best similarity strictly exceeds the threshold, but
`pickBestFuzzyMatch` rejects only ratings strictly below it: with the
default threshold 0.4 and base `"abc"`, the single candidate `"abde"` has
Dice rating exactly 2/5 = 0.4 — not strictly above the threshold — and is
nevertheless returned. -/
theorem claim_C7_counterexample :
    pickBestFuzzyMatch (2 / 5) "abc" [c7cand] = some c7cand ∧
      (bestRating (pickScores "abc" [c7cand])).2 = 2 / 5 ∧
      ¬ ((2 : ℚ) / 5 < (bestRating (pickScores "abc" [c7cand])).2) := by
  exact ⟨pick_c7_eq, bestRating_c7, by rw [bestRating_c7]; exact lt_irrefl _⟩

/-- C7 (amended).  The standalone fuzzy matcher `pickBestFuzzyMatch`
returns a candidate only if the best observed similarity rating is at least
(not strictly above) the configured threshold; when the best rating is
strictly below the threshold it returns no-match (`none`) rather than
raising; and an empty candidate list yields no-match immediately, before
any rating is computed.  (The sibling matcher `enhancedFuzzyMatch` keeps
the strict inequality.) -/
theorem claim_C7_amended (threshold : ℚ) (base : String) (results : List Candidate) :
    (results = [] → pickBestFuzzyMatch threshold base results = none) ∧
    (∀ c, pickBestFuzzyMatch threshold base results = some c →
      threshold ≤ (bestRating (pickScores base results)).2) ∧
    ((bestRating (pickScores base results)).2 < threshold →
      pickBestFuzzyMatch threshold base results = none) := by
  refine ⟨?_, ?_, ?_⟩
  · intro h
    subst h
    rfl
  · intro c hc
    unfold pickBestFuzzyMatch at hc
    by_cases he : results.isEmpty = true
    · rw [if_pos he] at hc; exact absurd hc (by simp)
    · rw [if_neg he] at hc
      by_cases hlt : (bestRating (pickScores base results)).2 < threshold
      · rw [if_pos hlt] at hc; exact absurd hc (by simp)
      · exact le_of_not_lt hlt
  · intro hlt
    unfold pickBestFuzzyMatch
    by_cases he : results.isEmpty = true
    · rw [if_pos he]
    · rw [if_neg he, if_pos hlt]

/-- C7 (witness).  The amended acceptance condition applied at the
counterexample input: the returned candidate's best rating is at least the
threshold. -/
theorem claim_C7_witness :
    (2 : ℚ) / 5 ≤ (bestRating (pickScores "abc" [c7cand])).2 :=
  (claim_C7_amended (2 / 5) "abc" [c7cand]).2.1 c7cand pick_c7_eq

theorem mapKeys_ok : ∀ (games : List (Option GameObjEntry)),
    (∀ g ∈ games, g.isSome = true) →
    mapKeys games = .ok (games.map keyForced) := by
  intro games
  induction games with
  | nil => intro _; rfl
  | cons g gs ih =>
    intro h
    obtain ⟨go, hgo⟩ := Option.isSome_iff_exists.mp (h g (List.mem_cons_self g gs))
    subst hgo
    have hrest := ih fun x hx => h x (List.mem_cons_of_mem _ hx)
    simp only [mapKeys, cacheKeyOf, hrest, keyForced, List.map_cons]
    rfl

theorem getD_set {γ : Type} :
    ∀ (l : List γ) (j i : Nat) (v d : γ),
      (l.set j v).getD i d = if j = i ∧ j < l.length then v else l.getD i d := by
  intro l
  induction l with
  | nil => intro j i v d; simp
  | cons a as ih =>
    intro j i v d
    cases j with
    | zero =>
      cases i with
      | zero => simp
      | succ i => simp
    | succ j =>
      cases i with
      | zero => simp
      | succ i =>
        simp only [List.set_cons_succ, List.getD_cons_succ, List.length_cons]
        rw [ih]
        split_ifs with h1 h2 h2 <;> first | rfl | (exfalso; omega)

theorem foldl_set_length {μ : Type} (u : Nat → Option μ) :
    ∀ (idxs : List Nat) (l : List (Option μ)),
      (idxs.foldl (fun acc j => acc.set j (u j)) l).length = l.length := by
  intro idxs
  induction idxs with
  | nil => intro l; rfl
  | cons j rest ih =>
    intro l
    simp only [List.foldl_cons]
    rw [ih, List.length_set]

theorem foldl_set_getD {μ : Type} (u : Nat → Option μ) :
    ∀ (idxs : List Nat) (l : List (Option μ)) (i : Nat),
      (idxs.foldl (fun acc j => acc.set j (u j)) l).getD i none
        = if i ∈ idxs ∧ i < l.length then u i else l.getD i none := by
  intro idxs
  induction idxs with
  | nil => intro l i; simp
  | cons j rest ih =>
    intro l i
    simp only [List.foldl_cons]
    rw [ih, List.length_set]
    by_cases hmem : i ∈ rest ∧ i < l.length
    · rw [if_pos hmem, if_pos ⟨List.mem_cons_of_mem _ hmem.1, hmem.2⟩]
    · rw [if_neg hmem, getD_set]
      by_cases hji : j = i ∧ j < l.length
      · obtain ⟨rfl, hlt⟩ := hji
        rw [if_pos ⟨rfl, hlt⟩, if_pos ⟨List.mem_cons_self _ _, hlt⟩]
      · have hno : ¬ (i ∈ j :: rest ∧ i < l.length) := by
          rintro ⟨hin, hlt⟩
          rcases List.mem_cons.mp hin with h | h
          · exact hji ⟨h.symm, h ▸ hlt⟩
          · exact hmem ⟨h, hlt⟩
        rw [if_neg hji, if_neg hno]

theorem chunksOf5_flatten : ∀ l : List Nat, (chunksOf5 l).flatten = l := by
  intro l
  induction l using chunksOf5.induct with
  | case1 => simp [chunksOf5]
  | case2 x xs ih =>
    rw [chunksOf5]
    simp only [List.flatten_cons]
    rw [ih]
    simp [List.take_append_drop]

theorem foldl_chunks_flatten {μ : Type} (step : List (Option μ) → Nat → List (Option μ)) :
    ∀ (chs : List (List Nat)) (init : List (Option μ)),
      chs.foldl (fun acc ch => ch.foldl step acc) init = chs.flatten.foldl step init := by
  intro chs
  induction chs with
  | nil => intro init; rfl
  | cons ch rest ih =>
    intro init
    simp only [List.foldl_cons, List.flatten_cons, List.foldl_append]
    exact ih _

theorem getD_map_lt {γ δ : Type} (f : γ → δ) :
    ∀ (l : List γ) (i : Nat) (d : δ) (d0 : γ), i < l.length →
      (l.map f).getD i d = f (l.getD i d0) := by
  intro l
  induction l with
  | nil => intro i d d0 h; simp at h
  | cons a as ih =>
    intro i d d0 h
    cases i with
    | zero => simp
    | succ i =>
      simp only [List.map_cons, List.getD_cons_succ]
      exact ih i d d0 (by simpa using h)

theorem getD_mem {γ : Type} :
    ∀ (l : List γ) (i : Nat) (d : γ), i < l.length → l.getD i d ∈ l := by
  intro l
  induction l with
  | nil => intro i d h; simp at h
  | cons a as ih =>
    intro i d h
    cases i with
    | zero => simp
    | succ i =>
      simp only [List.getD_cons_succ]
      exact List.mem_cons_of_mem _ (ih i d (by simpa using h))

theorem eq_of_getD {γ : Type} (d : γ) :
    ∀ (l1 l2 : List γ), l1.length = l2.length →
      (∀ i, i < l1.length → l1.getD i d = l2.getD i d) → l1 = l2 := by
  intro l1
  induction l1 with
  | nil =>
    intro l2 hlen _
    cases l2 with
    | nil => rfl
    | cons b bs => simp at hlen
  | cons a as ih =>
    intro l2 hlen hp
    cases l2 with
    | nil => simp at hlen
    | cons b bs =>
      have h0 := hp 0 (by simp)
      simp only [List.getD_cons_zero] at h0
      subst h0
      have := ih bs (by simpa using hlen) fun i hi => by
        have := hp (i + 1) (by simpa using Nat.succ_lt_succ hi)
        simpa using this
      rw [this]

/-- C10 (counterexample).  The claim promises one output slot per input
element with `null` for invalid elements, but an array containing a `null`
element makes the whole call throw: the cache-key template reads
`.consoleName` of `null` before the `!game` guard can run. -/
theorem claim_C10_counterexample :
    fetchGameMetadataBatch ([] : List (String × Nat)) (fun _ => (none : Option Nat))
      (fun _ _ => .ok []) (.arr [none]) = .error .typeError := rfl

/-- C10 (amended).  `fetchGameMetadataBatch` is total and
alignment-preserving on its intended inputs: a non-array argument yields
`[]`, and an array of n entries none of which is `null`/`undefined` yields
exactly the n-slot result where slot i holds the cached or freshly fetched
metadata of `games[i]`, and `none` when that entry is invalid (falsy
title) or unmatched — one entry's lookup failure never removes or shifts
another's slot.  A `null`/`undefined` element instead makes the whole call
reject with a `TypeError` (see the counterexample). -/
theorem claim_C10_amended {μ : Type} (platMap : List (String × Nat))
    (cacheVal : String → Option μ) (searchO : String → Nat → Except JsError (List μ)) :
    (fetchGameMetadataBatch platMap cacheVal searchO .notArray = .ok []) ∧
    ∀ games : List (Option GameObjEntry), (∀ g ∈ games, g.isSome = true) →
      fetchGameMetadataBatch platMap cacheVal searchO (.arr games)
        = .ok (games.map (expectedBatchResult platMap cacheVal searchO)) := by
  refine ⟨rfl, ?_⟩
  intro games hall
  show fetchBatchArr platMap cacheVal searchO games = _
  unfold fetchBatchArr
  rw [mapKeys_ok games hall]
  show Except.ok _ = Except.ok _
  congr 1
  rw [show (games.map keyForced).map cacheVal = games.map fun g => cacheVal (keyForced g)
    from List.map_map ..]
  set F := fetchOneGame platMap searchO (μ := μ) with hF
  set cached := games.map fun g => cacheVal (keyForced g) with hcached
  set missing := (List.range games.length).filter
    (fun i => (cached.getD i none).isNone) with hmissing
  have hstep : (chunksOf5 missing).foldl
      (fun acc ch => applyBatchUpdates games F ch acc) cached
      = missing.foldl (fun acc i => acc.set i (F (games.getD i none))) cached := by
    unfold applyBatchUpdates
    rw [foldl_chunks_flatten, chunksOf5_flatten]
  rw [hstep]
  have hclen : cached.length = games.length := by
    rw [hcached, List.length_map]
  apply eq_of_getD none
  · rw [foldl_set_length, hclen, List.length_map]
  · intro i hi
    rw [foldl_set_length, hclen] at hi
    rw [foldl_set_getD]
    have hmem_missing : i ∈ missing ↔ (cached.getD i none).isNone = true := by
      rw [hmissing]
      simp [List.mem_filter, List.mem_range, hi]
    have hcachedi : cached.getD i none = cacheVal (keyForced (games.getD i none)) := by
      rw [hcached]
      exact getD_map_lt _ games i none none hi
    obtain ⟨go, hgo⟩ := Option.isSome_iff_exists.mp
      (hall (games.getD i none) (getD_mem games i none hi))
    have hrhs : (games.map (expectedBatchResult platMap cacheVal searchO)).getD i none
        = expectedBatchResult platMap cacheVal searchO (games.getD i none) :=
      getD_map_lt _ games i none none hi
    rw [hrhs, hgo]
    have hkey : keyForced (games.getD i none) = gameKeyStr go := by rw [hgo]; rfl
    cases hcv : cacheVal (gameKeyStr go) with
    | some m =>
      have hnotmiss : ¬ i ∈ missing := by
        rw [hmem_missing, hcachedi, hkey, hcv]
        simp
      rw [if_neg (by exact fun h => hnotmiss h.1)]
      rw [hcachedi, hkey, hcv]
      simp [expectedBatchResult, hcv]
    | none =>
      have hmiss : i ∈ missing := by
        rw [hmem_missing, hcachedi, hkey, hcv]
        rfl
      rw [if_pos ⟨hmiss, by rw [hclen]; exact hi⟩]
      simp [expectedBatchResult, hcv, hF]

/-- C10 (witness).  One valid entry, cache miss, successful search: the
output is the one-slot array holding the search result. -/
theorem claim_C10_witness :
    fetchGameMetadataBatch [("nes", 18)] (fun _ => (none : Option Nat))
        (fun _ _ => .ok [7]) (.arr [some ⟨some "nes", some "Mario"⟩])
      = .ok ([some ⟨some "nes", some "Mario"⟩].map
          (expectedBatchResult [("nes", 18)] (fun _ => none) (fun _ _ => .ok [7]))) :=
  (claim_C10_amended [("nes", 18)] (fun _ => none) (fun _ _ => .ok [7])).2
    [some ⟨some "nes", some "Mario"⟩] (by decide)

/-- C8.  Title normalization is not idempotent: on `"translatedUSA"` the
first pass matches the translations pattern (which has no trailing word
boundary) against `"translatedUS"`, leaving clean title `"A"`; renormalizing
`"A"` strips it as a region code, producing `""` — so
`normalize(normalize(T).clean).clean ≠ normalize(T).clean`, and the second
pass strips an annotation (`A` as a region) that the first pass left in
place. -/
theorem claim_C8 :
    (preprocessGameName "translatedUSA").clean = "A" ∧
      (preprocessGameName "A").clean = "" ∧
      (preprocessGameName ((preprocessGameName "translatedUSA").clean)).clean
        ≠ (preprocessGameName "translatedUSA").clean := by
  refine ⟨by decide, by decide, by decide⟩

end RetroScraper
